import Mathlib

/-!
Verification development for the Jukebox player core.

Shallow embedding of:
  * `src/models.py`   — `Note`, `KeyEvent`, `KeyState` records;
  * `src/player.py`   — `Player._compile_event_list`, `Player._get_mistake_pitch`,
    `Player._execute_chord_event`, `Player._handle_pedal_event`, `Player.shutdown`,
    `Player.seek` and the playback-clock arithmetic of `Player._run_cursor_loop`;
  * `src/RobloxMidiConnect_encoder.py` — the numeric-macro encoder.

Python `float` time values are modelled as exact rationals (`ℚ`), machine-level
randomness as explicit draw streams, and Python's `heapq` (push-all/pop-all with the
`dataclass(order=True)` comparison key, which compares only the `(time, priority)`
fields because every other field is declared `compare=False`) as a stable sort by
that key: popping every element of a binary min-heap yields the pushed multiset in
non-decreasing key order, which is exactly what the sort produces.

`KeyMapper` (module `core`) and `PedalGenerator` (module `analysis`) are not part of
the repository sources provided under `src/`; following the spec they are modelled as
abstract parameters (`Mapper`, an arbitrary pedal-event list), except for
`is_black_key`, which the spec pins down by example.
-/

namespace Jukebox

/-- `models.Note` (dataclass): immutable input note. Times are seconds, modelled
as exact rationals. -/
structure Note where
  id : ℤ
  pitch : ℤ
  velocity : ℤ
  start_time : ℚ
  duration : ℚ
  hand : String := "unknown"
deriving DecidableEq, Repr

/-- `models.Note.end_time` property: `start_time + duration`. -/
def Note.end_time (n : Note) : ℚ := n.start_time + n.duration

/-- `models.KeyEvent` (dataclass with `order=True`): `time` and `priority` are the
only fields generated comparisons look at (`action`, `key_char`, `pitch`, `velocity`
are `compare=False`). -/
structure KeyEvent where
  time : ℚ
  priority : ℤ
  action : String
  key_char : String
  pitch : Option ℤ := none
  velocity : ℤ := 100
deriving DecidableEq, Repr

/-- The comparison key of `dataclass(order=True)` on `KeyEvent`: lexicographic on
`(time, priority)`.  This is the order in which `heapq` yields the compiled events. -/
def event_le (a b : KeyEvent) : Prop :=
  a.time < b.time ∨ (a.time = b.time ∧ a.priority ≤ b.priority)

instance : DecidableRel event_le := fun a b => by
  unfold event_le; infer_instance

instance : IsTotal KeyEvent event_le :=
  ⟨fun a b => by
    unfold event_le
    rcases lt_trichotomy a.time b.time with h | h | h
    · exact Or.inl (Or.inl h)
    · rcases le_total a.priority b.priority with hp | hp
      · exact Or.inl (Or.inr ⟨h, hp⟩)
      · exact Or.inr (Or.inr ⟨h.symm, hp⟩)
    · exact Or.inr (Or.inl h)⟩

instance : IsTrans KeyEvent event_le :=
  ⟨fun a b c hab hbc => by
    unfold event_le at *
    rcases hab with h1 | ⟨h1, hp1⟩ <;> rcases hbc with h2 | ⟨h2, hp2⟩
    · exact Or.inl (h1.trans h2)
    · exact Or.inl (h2 ▸ h1)
    · exact Or.inl (h1 ▸ h2)
    · exact Or.inr ⟨h1.trans h2, hp1.trans hp2⟩⟩

/-- `models.KeyState` (dataclass). -/
structure KeyState where
  key_char : String
  is_active : Bool := false
  is_sustained : Bool := false
deriving DecidableEq, Repr

/-- `KeyState.press`. -/
def KeyState.press (s : KeyState) : KeyState := { s with is_active := true }

/-- `KeyState.release`: clears both flags. -/
def KeyState.release (s : KeyState) : KeyState :=
  { s with is_active := false, is_sustained := false }

/-- `KeyState.is_physically_down` property (an alias of `is_active`). -/
def KeyState.is_physically_down (s : KeyState) : Bool := s.is_active

/-- `Player.key_states` (`Dict[str, KeyState]`): Python dicts preserve insertion
order, modelled as an association list. -/
abbrev KeyStates := List (String × KeyState)

/-- Dict lookup `m.get(k)`. -/
def ks_lookup (m : KeyStates) (k : String) : Option KeyState :=
  (m.find? (fun e => e.1 == k)).map (fun e => e.2)

/-- In-place mutation of the entry at `k` (Python mutates the stored object). -/
def ks_update (m : KeyStates) (k : String) (f : KeyState → KeyState) : KeyStates :=
  m.map (fun e => if e.1 == k then (e.1, f e.2) else e)

/-- `if key_char not in self.key_states: self.key_states[key_char] = KeyState(key_char)`. -/
def ks_insert_new (m : KeyStates) (k : String) : KeyStates :=
  if (ks_lookup m k).isSome then m else m ++ [(k, ⟨k, false, false⟩)]

/-- Result of `mapper.get_key_data(pitch)`: base key symbol plus modifier keys.
Modelled from the spec: `mapper.resolve(pitch) → x7bbase key, modifier setx7d or absent`. -/
structure KeyData where
  key : String
  modifiers : List String
deriving DecidableEq, Repr

/-- Modelled from the spec: the `KeyMapper` class lives in the external `core`
module, which is not under `src/`; the spec exposes `mapper.resolve(pitch)` (or
absent) and `mapper.symbol_map` style base-key translation, so the mapper is kept
abstract. -/
structure Mapper where
  get_key_data : ℤ → Option KeyData
  symbol_map : String → Option String

/-- Modelled from the spec: `KeyMapper.is_black_key` (module `core`, not under
`src/`).  The spec exposes `mapper.is_black_key(pitch) → bool` and its example
treats pitch 61 (C#) as a black key, i.e. a pitch is black iff its pitch class is
one of C#, D#, F#, G#, A#.  Python `%` on a positive modulus agrees with Lean's
`%` on `ℤ`. -/
def is_black_key (p : ℤ) : Bool :=
  decide (p % 12 = 1 ∨ p % 12 = 3 ∨ p % 12 = 6 ∨ p % 12 = 8 ∨ p % 12 = 10)

/-- `models.MusicalSection` (only the fields the player core reads). -/
structure MusicalSection where
  start_time : ℚ
  end_time : ℚ
  articulation_label : String := "unknown"
deriving DecidableEq, Repr

/-- The mistake configuration read from `self.config` in `_compile_event_list`:
`enable_mistakes` and the raw percent value `mistake_chance`. -/
structure CompileCfg where
  enable_mistakes : Bool
  mistake_chance : ℚ
deriving DecidableEq, Repr

/-- `mistake_chance = self.config.get('mistake_chance', 0) / 100.0`. -/
def CompileCfg.chance (c : CompileCfg) : ℚ := c.mistake_chance / 100

/-- The two random streams `_compile_event_list` consumes: `uniform k` is the
`k`-th value of `random.random()` (in `[0,1)`), `choice k` the `k`-th index drawn
by `random.choice` (uniform over the choice list, used modulo its length). -/
structure RNG where
  uniform : ℕ → ℚ
  choice : ℕ → ℕ

/-- The `random.choice([-2, -1, 1, 2])` candidate offsets of `_get_mistake_pitch`. -/
def mistake_offsets : List ℤ := [-2, -1, 1, 2]

/-- `valid = [p for p in [pitch-2, pitch-1, pitch+1, pitch+2] if not is_black_key(p)]`. -/
def white_candidates (p : ℤ) : List ℤ :=
  [p - 2, p - 1, p + 1, p + 2].filter (fun q => !is_black_key q)

/-- `Player._get_mistake_pitch`: black pitches offset by a uniform draw from
`±1, ±2`; white pitches draw uniformly from the white candidates, `None` when no
candidate qualifies.  `random.choice l` is modelled as `l[pick % l.length]` for a
uniform index stream `pick`; the index is always in range, so `getD`'s default is
never used. -/
def get_mistake_pitch (p : ℤ) (pick : ℕ) : Option ℤ :=
  if is_black_key p then some (p + mistake_offsets.getD (pick % 4) 0)
  else
    let valid := white_candidates p
    if valid.isEmpty then none
    else some (valid.getD (pick % valid.length) 0)

/-- Whether a call to `_get_mistake_pitch` consumes a `random.choice` draw
(always, except for a white pitch with no white candidate). -/
def mistake_consumes_choice (p : ℤ) : Bool :=
  is_black_key p || !(white_candidates p).isEmpty

/-- The section search of `_compile_event_list`: first section with
`start_time <= note.start_time < end_time`, else `-1`. -/
def section_idx_of (sections : List MusicalSection) (n : Note) : ℤ :=
  match sections.findIdx? (fun s => decide (s.start_time ≤ n.start_time ∧ n.start_time < s.end_time)) with
  | some i => (i : ℤ)
  | none => -1

/-- The loop state of `_compile_event_list`: the per-section played set, the
current section index, the key-state table, the events pushed so far (push order),
and the positions in the two random streams. -/
structure CompileState where
  played : Finset ℤ
  current_section_idx : ℤ
  key_states : KeyStates
  events : List KeyEvent
  u_ctr : ℕ
  c_ctr : ℕ

/-- Initial compile state (`key_states.clear()`, empty heap, fresh streams). -/
def compile_init : CompileState := ⟨∅, -1, [], [], 0, 0⟩

/-- The two events pushed for an unsubstituted mappable note:
press at `start_time` with the note's velocity, release at `end_time` with 0. -/
def true_note_events (note : Note) (kd : KeyData) : List KeyEvent :=
  [⟨note.start_time, 2, "press", kd.key, some note.pitch, note.velocity⟩,
   ⟨note.end_time, 4, "release", kd.key, some note.pitch, 0⟩]

/-- The two events pushed for a substituted note (realized pitch `m`): press at
`start_time`, release at `start_time + duration` (which equals `end_time`). -/
def mistake_note_events (note : Note) (m : ℤ) (kd : KeyData) : List KeyEvent :=
  [⟨note.start_time, 2, "press", kd.key, some m, note.velocity⟩,
   ⟨note.start_time + note.duration, 4, "release", kd.key, some m, 0⟩]

/-- The substitution resolved by the `make_mistake` branch of the note loop:
`some (m, kd)` exactly when mistakes are enabled, the pitch is eligible (not in the
current section's played set), the Bernoulli draw succeeds, `_get_mistake_pitch`
returns a Python-truthy value (`None` and `0` are falsy: `if mistake_pitch:`), and
the mistake pitch is mappable; in every other case the loop falls through to the
unsubstituted branch. -/
def mistake_result (cfg : CompileCfg) (mapper : Mapper) (rng : RNG) (played : Finset ℤ)
    (u c : ℕ) (note : Note) : Option (ℤ × KeyData) :=
  if cfg.enable_mistakes ∧ note.pitch ∉ played ∧ rng.uniform u < cfg.chance then
    match get_mistake_pitch note.pitch (rng.choice c) with
    | some m => if m ≠ 0 then (mapper.get_key_data m).map (fun kd => (m, kd)) else none
    | none => none
  else none

/-- One iteration of the note loop of `Player._compile_event_list`.  Python's
short-circuit `and` means `random.random()` is consumed only when mistakes are
enabled and the pitch is eligible; `random.choice` only when the mistake branch
actually draws.  Note that only the unsubstituted branch initializes a `KeyState`
entry — the mistake branch pushes its two events without ever touching
`self.key_states`. -/
def compile_note_step (cfg : CompileCfg) (mapper : Mapper) (rng : RNG)
    (sections : List MusicalSection) (st : CompileState) (note : Note) : CompileState :=
  let nsi := section_idx_of sections note
  let played0 := if nsi ≠ st.current_section_idx then (∅ : Finset ℤ) else st.played
  let u1 := if cfg.enable_mistakes ∧ note.pitch ∉ played0 then st.u_ctr + 1 else st.u_ctr
  let c1 := if (cfg.enable_mistakes ∧ note.pitch ∉ played0 ∧ rng.uniform st.u_ctr < cfg.chance)
               ∧ mistake_consumes_choice note.pitch then st.c_ctr + 1 else st.c_ctr
  match mistake_result cfg mapper rng played0 st.u_ctr st.c_ctr note with
  | some (m, kd) =>
      { played := insert note.pitch played0, current_section_idx := nsi,
        key_states := st.key_states,
        events := st.events ++ mistake_note_events note m kd,
        u_ctr := u1, c_ctr := c1 }
  | none =>
      match mapper.get_key_data note.pitch with
      | some kd =>
          { played := insert note.pitch played0, current_section_idx := nsi,
            key_states := ks_insert_new st.key_states kd.key,
            events := st.events ++ true_note_events note kd,
            u_ctr := u1, c_ctr := c1 }
      | none =>
          { played := insert note.pitch played0, current_section_idx := nsi,
            key_states := st.key_states, events := st.events, u_ctr := u1, c_ctr := c1 }

/-- `Player._compile_event_list`: run the note loop, push the externally generated
pedal events (already time/priority-stamped, produced by `PedalGenerator` in the
external `analysis` module, hence a parameter), and pop everything off the heap.
The heap push-all/pop-all is modelled as a stable sort by the `(time, priority)`
comparison key (see the file header).  Returns the compiled timeline, the key-state
table, and `total_duration` (last event's time, or 0 when empty). -/
def compile_event_list (cfg : CompileCfg) (mapper : Mapper) (rng : RNG)
    (notes : List Note) (sections : List MusicalSection) (pedal_events : List KeyEvent) :
    List KeyEvent × KeyStates × ℚ :=
  let stF := notes.foldl (compile_note_step cfg mapper rng sections) compile_init
  let compiled := List.insertionSort event_le (stF.events ++ pedal_events)
  (compiled, stF.key_states, ((compiled.getLast?).map KeyEvent.time).getD 0)

/-- The dispatch tier order claimed by the spec: pedal before release before press. -/
def tier_rank (action : String) : ℕ :=
  if action == "pedal" then 0 else if action == "release" then 1
  else if action == "press" then 2 else 3

/-- The specification's ordering invariant for a compiled timeline: scheduled times
are non-decreasing and, among entries with equal time, pedal-tier entries precede
release-tier entries precede press-tier entries. -/
def claimed_tier_order (evs : List KeyEvent) : Prop :=
  List.Pairwise (fun a b =>
    a.time ≤ b.time ∧ (a.time = b.time → tier_rank a.action ≤ tier_rank b.action)) evs

instance claimed_tier_order_dec (evs : List KeyEvent) : Decidable (claimed_tier_order evs) := by
  unfold claimed_tier_order; infer_instance

/-- The externally observable actuations of the dispatcher and the two sinks:
synthesized key press/release (with held modifiers), the spacebar pedal, the
numeric-macro note/pedal messages, and the defensive modifier releases of
`shutdown`.  (Log text and GUI signals are out of the spec's scope and omitted;
every physical call in the source is wrapped in `try/except`, so failures are
swallowed and never alter control flow.) -/
inductive Phys where
  | pressKey (modifiers : List String) (base : String)
  | releaseKey (base : String)
  | pressSpace
  | releaseSpace
  | sendNoteMsg (pitch : ℤ) (velocity : ℤ) (is_note_off : Bool)
  | sendPedalValue (value : ℤ)
  | releaseModifier (m : String)
deriving DecidableEq, Repr

/-- The `Player` fields `_execute_chord_event` and `_handle_pedal_event` read and
write: the output mode tag, the key-state table, the pedal flag and the stop flag. -/
structure ExecState where
  output_mode : String
  key_states : KeyStates
  pedal_is_down : Bool
  stop_requested : Bool

/-- `Player._handle_pedal_event`. -/
def handle_pedal_event (st : ExecState) (e : KeyEvent) : ExecState × List Phys :=
  if st.stop_requested then (st, [])
  else if st.output_mode == "midi_numpad" then
    (st, [Phys.sendPedalValue (if e.key_char == "down" then 127 else 0)])
  else if e.key_char == "down" && !st.pedal_is_down then
    ({ st with pedal_is_down := true }, [Phys.pressSpace])
  else if e.key_char == "up" && st.pedal_is_down then
    ({ st with pedal_is_down := false }, [Phys.releaseSpace])
  else (st, [])

/-- `Player._get_press_info_from_event`. -/
def get_press_info (mapper : Mapper) (e : KeyEvent) : List String × String :=
  match e.pitch with
  | none => ([], e.key_char)
  | some p =>
    match mapper.get_key_data p with
    | none => ([], e.key_char)
    | some kd => (kd.modifiers, kd.key)

/-- The body of the release loop of `_execute_chord_event` for one event. -/
def exec_release (mapper : Mapper) (st : ExecState) (e : KeyEvent) : ExecState × List Phys :=
  if st.output_mode == "midi_numpad" then
    (st, match e.pitch with | some p => [Phys.sendNoteMsg p 0 true] | none => [])
  else
    match ks_lookup st.key_states e.key_char with
    | none => (st, [])
    | some _ =>
      let base := (mapper.symbol_map e.key_char).getD e.key_char
      ({ st with key_states := ks_update st.key_states e.key_char KeyState.release },
       [Phys.releaseKey base])

/-- The body of the press loop of `_execute_chord_event` for one event: dedup when
the key is already physically down, release-then-restrike when it is held only as
sustain. -/
def exec_press (mapper : Mapper) (st : ExecState) (e : KeyEvent) : ExecState × List Phys :=
  if st.output_mode == "midi_numpad" then
    (st, match e.pitch with | some p => [Phys.sendNoteMsg p e.velocity false] | none => [])
  else
    match ks_lookup st.key_states e.key_char, e.pitch with
    | some s, some _ =>
      let mb := get_press_info mapper e
      let was_physically_down := s.is_physically_down
      let is_sustained_only := s.is_sustained && !s.is_active
      let st1 := { st with key_states := ks_update st.key_states e.key_char KeyState.press }
      let ems :=
        if is_sustained_only then [Phys.releaseKey mb.2, Phys.pressKey mb.1 mb.2]
        else if !was_physically_down then [Phys.pressKey mb.1 mb.2]
        else []
      (st1, ems)
    | _, _ => (st, [])

/-- Run one of the three per-tier loops of `_execute_chord_event`, tagging every
emission with the action kind of the loop that produced it. -/
def tag_run (tag : String) (h : ExecState → KeyEvent → ExecState × List Phys)
    (acc : ExecState × List (String × Phys)) (evs : List KeyEvent) :
    ExecState × List (String × Phys) :=
  evs.foldl (fun a e => ((h a.1 e).1, a.2 ++ (h a.1 e).2.map (fun p => (tag, p)))) acc

/-- `Player._execute_chord_event`: filter the batch into the three action groups
and run the pedal loop, then the release loop, then the press loop. -/
def execute_chord_event (mapper : Mapper) (st : ExecState) (events : List KeyEvent) :
    ExecState × List (String × Phys) :=
  if st.stop_requested then (st, [])
  else
    let pedal_events := events.filter (fun e => e.action == "pedal")
    let release_events := events.filter (fun e => e.action == "release")
    let press_events := events.filter (fun e => e.action == "press")
    let a1 := tag_run "pedal" handle_pedal_event (st, []) pedal_events
    let a2 := tag_run "release" (exec_release mapper) a1 release_events
    tag_run "press" (exec_press mapper) a2 press_events

/-- The `Player` fields read and written by `shutdown`, `seek` and the playback
clock: key states, pedal flag, compiled timeline, cursor, reference instant,
cumulative paused time, last pause instant, pause flag, total duration. -/
structure PlayerSt where
  key_states : KeyStates
  pedal_is_down : Bool
  compiled_events : List KeyEvent
  event_index : ℕ
  start_time : ℚ
  total_paused_time : ℚ
  last_pause_timestamp : ℚ
  paused : Bool
  total_duration : ℚ

/-- `Player.shutdown`: physically release every active key and clear every entry's
flags, release the pedal if engaged, then defensively release the modifier keys.
The key loop iterates the table in insertion order, emitting a physical release
only for entries with `is_active` and calling `state.release()` on every entry. -/
def shutdown (mapper : Mapper) (s : PlayerSt) : PlayerSt × List Phys :=
  let key_ems := (s.key_states.filter (fun e => e.2.is_active)).map
    (fun e => Phys.releaseKey ((mapper.symbol_map e.1).getD e.1))
  let ks := s.key_states.map (fun e => (e.1, e.2.release))
  let pedal_ems := if s.pedal_is_down then [Phys.releaseSpace] else []
  let mod_ems := [Phys.releaseModifier ("shift"), Phys.releaseModifier ("ctrl"),
                  Phys.releaseModifier ("alt")]
  ({ s with key_states := ks, pedal_is_down := false },
   key_ems ++ pedal_ems ++ mod_ems)

/-- `bisect.bisect_left(times, target)` on the compiled (sorted) time list: the
leftmost insertion point, i.e. the length of the maximal prefix of entries `< target`.
(The Python standard-library binary search computes exactly this on a sorted list.) -/
def bisect_left (l : List ℚ) (x : ℚ) : ℕ :=
  (l.takeWhile (fun y => decide (y < x))).length

/-- `Player.seek`: full shutdown first, then relocate the cursor with
`bisect_left` over the event times, then recompute the reference instant from the
wall clock `now` (`time.perf_counter()`), branching on the pause flag. -/
def seek (mapper : Mapper) (s : PlayerSt) (target_time : ℚ) (now : ℚ) : PlayerSt :=
  let s0 := (shutdown mapper s).1
  let times := s0.compiled_events.map KeyEvent.time
  let new_idx := bisect_left times target_time
  if s0.paused then
    { s0 with event_index := new_idx, total_paused_time := 0,
              start_time := now - target_time, last_pause_timestamp := now }
  else
    { s0 with event_index := new_idx,
              start_time := now - target_time - s0.total_paused_time }

/-- The playback clock of `_run_cursor_loop`:
`playback_time = (now - self.start_time) - self.total_paused_time`. -/
def playback_time_at (s : PlayerSt) (now : ℚ) : ℚ :=
  (now - s.start_time) - s.total_paused_time

/-- `encoded_keys` of the numeric-macro encoder: the ordered 12-symbol alphabet. -/
def encoded_keys : List String :=
  ["numpad0", "numpad1", "numpad2", "numpad3", "numpad4", "numpad5",
   "numpad6", "numpad7", "numpad8", "numpad9", "subtract", "add"]

/-- Python list indexing `l[i]`: in-range indices, negative wrap-around indices,
and `none` for an out-of-range index (an uncaught `IndexError`). -/
def py_index (l : List String) (i : ℤ) : Option String :=
  if 0 ≤ i then l[i.toNat]?
  else if 0 ≤ (l.length : ℤ) + i then l[((l.length : ℤ) + i).toNat]?
  else none

/-- The digit clamp of `encode_and_send_message`:
`if not (0 <= value < 12): value = max(0, min(11, value))`. -/
def clamp_digit (v : ℤ) : ℤ :=
  if 0 ≤ v ∧ v < 12 then v else max 0 (min 11 v)

/-- The digit loop of `encode_and_send_message`: clamp each value and index
`encoded_keys`; an out-of-range index anywhere would abort with `IndexError`
(modelled as `none`). -/
def py_digit_keys : List ℤ → Option (List String)
  | [] => some []
  | v :: rest =>
    match py_index encoded_keys (clamp_digit v), py_digit_keys rest with
    | some k, some ks => some (k :: ks)
    | _, _ => none

/-- `encode_and_send_message(a, b, c, d)`: one leading start symbol (the
`multiply` numpad key) followed by the four digit symbols, each digit clamped into
`[0,11]` before indexing `encoded_keys`.  The result is the sequence of key names
handed to `_send_key` (which resolves them per platform and swallows every
failure); `none` would model an uncaught `IndexError`. -/
def encode_and_send_message (a b c d : ℤ) : Option (List String) :=
  match py_digit_keys [a, b, c, d] with
  | some ks => some ("multiply" :: ks)
  | none => none

/-- `_encode_note_components`: base-12 split of the pitch, and of the velocity
clamped to `[0,127]` (forced to 0 for note-off).  `math.floor(x / 12)` and
`x % 12` on integers agree with Lean's `/` and `%` on `ℤ`. -/
def encode_note_components (note velocity : ℤ) (is_note_off : Bool) : ℤ × ℤ × ℤ × ℤ :=
  let octave_no := note / 12
  let note_no := note % 12
  if is_note_off then (octave_no, note_no, 0, 0)
  else
    let v := max 0 (min 127 velocity)
    (octave_no, note_no, v / 12, v % 12)

/-- `send_note_message`. -/
def send_note_message (note velocity : ℤ) (is_note_off : Bool) : Option (List String) :=
  match encode_note_components note velocity is_note_off with
  | (a, b, c, d) => encode_and_send_message a b c d

/-- `PEDAL_SENTINEL = 143`. -/
def PEDAL_SENTINEL : ℤ := 143

/-- `send_pedal(value)`: clamp the pedal value to `[0,127]`, then emit the base-12
split of the sentinel followed by the base-12 split of the value. -/
def send_pedal (value : ℤ) : Option (List String) :=
  let v := max 0 (min 127 value)
  encode_and_send_message (PEDAL_SENTINEL / 12) (PEDAL_SENTINEL % 12) (v / 12) (v % 12)

/-- The symbol `encoded_keys[i]` for an in-range digit (the default is never used
in the theorems below, which establish `0 ≤ i < 12` first). -/
def digit_symbol (i : ℤ) : String :=
  (encoded_keys[i.toNat]?).getD "numpad0"

/-! ## Helper lemmas -/

theorem clamp_digit_bounds (v : ℤ) : 0 ≤ clamp_digit v ∧ clamp_digit v < 12 := by
  unfold clamp_digit
  split <;> omega

theorem py_index_encoded (i : ℤ) (h0 : 0 ≤ i) (h12 : i < 12) :
    py_index encoded_keys i = some (digit_symbol i) := by
  have hi : i.toNat < encoded_keys.length := by
    have : encoded_keys.length = 12 := by decide
    omega
  unfold py_index digit_symbol
  rw [if_pos h0, List.getElem?_eq_getElem hi]
  rfl

theorem encode_in_range (a b c d : ℤ)
    (ha : 0 ≤ a ∧ a < 12) (hb : 0 ≤ b ∧ b < 12) (hc : 0 ≤ c ∧ c < 12) (hd : 0 ≤ d ∧ d < 12) :
    encode_and_send_message a b c d =
      some ["multiply", digit_symbol a, digit_symbol b, digit_symbol c, digit_symbol d] := by
  have hca : clamp_digit a = a := by unfold clamp_digit; exact if_pos ha
  have hcb : clamp_digit b = b := by unfold clamp_digit; exact if_pos hb
  have hcc : clamp_digit c = c := by unfold clamp_digit; exact if_pos hc
  have hcd : clamp_digit d = d := by unfold clamp_digit; exact if_pos hd
  unfold encode_and_send_message
  simp only [py_digit_keys, hca, hcb, hcc, hcd,
    py_index_encoded a ha.1 ha.2, py_index_encoded b hb.1 hb.2,
    py_index_encoded c hc.1 hc.2, py_index_encoded d hd.1 hd.2]

/-! ## C9 / C10: the numeric-macro encoder -/

/-- C9: for a note action the encoder emits one start symbol followed by the
base-12 digits `⌊pitch/12⌋`, `pitch mod 12`, `⌊v/12⌋`, `v mod 12`, where `v` is
the velocity clamped to `[0,127]` for note-on and forced to `0` for note-off; for
a pedal action it emits the start symbol, the base-12 split `(11,11)` of the
sentinel `143`, and the base-12 split of the pedal value clamped to `[0,127]`. -/
theorem note_and_pedal_macro_format :
    (∀ (note velocity : ℤ) (off : Bool), 0 ≤ note → note ≤ 127 →
      send_note_message note velocity off =
        some ["multiply", digit_symbol (note / 12), digit_symbol (note % 12),
          digit_symbol ((if off then 0 else max 0 (min 127 velocity)) / 12),
          digit_symbol ((if off then 0 else max 0 (min 127 velocity)) % 12)]) ∧
    PEDAL_SENTINEL / 12 = 11 ∧ PEDAL_SENTINEL % 12 = 11 ∧
    (∀ value : ℤ, send_pedal value =
      some ["multiply", "add", "add",
        digit_symbol (max 0 (min 127 value) / 12), digit_symbol (max 0 (min 127 value) % 12)]) := by
  have hdiv : ∀ x : ℤ, 0 ≤ x → x ≤ 127 → (0 ≤ x / 12 ∧ x / 12 < 12) ∧ (0 ≤ x % 12 ∧ x % 12 < 12) := by
    intro x h0 h127
    constructor <;> constructor <;> omega
  have hadd : digit_symbol 11 = "add" := by decide
  refine ⟨?_, by decide, by decide, ?_⟩
  · intro note velocity off h0 h127
    have hv : 0 ≤ max 0 (min 127 velocity) ∧ max 0 (min 127 velocity) ≤ 127 := by omega
    unfold send_note_message encode_note_components
    cases off with
    | false =>
      simp only [Bool.false_eq_true, if_false]
      exact encode_in_range _ _ _ _ ((hdiv note h0 h127).1) ((hdiv note h0 h127).2)
        ((hdiv _ hv.1 hv.2).1) ((hdiv _ hv.1 hv.2).2)
    | true =>
      simp only [if_true]
      exact encode_in_range _ _ _ _ ((hdiv note h0 h127).1) ((hdiv note h0 h127).2)
        ((hdiv 0 (by omega) (by omega)).1) ((hdiv 0 (by omega) (by omega)).2)
  · intro value
    have hv : 0 ≤ max 0 (min 127 value) ∧ max 0 (min 127 value) ≤ 127 := by omega
    unfold send_pedal
    have h := encode_in_range (PEDAL_SENTINEL / 12) (PEDAL_SENTINEL % 12)
      (max 0 (min 127 value) / 12) (max 0 (min 127 value) % 12)
      (by unfold PEDAL_SENTINEL; omega) (by unfold PEDAL_SENTINEL; omega)
      ((hdiv _ hv.1 hv.2).1) ((hdiv _ hv.1 hv.2).2)
    rw [h]
    have h11 : PEDAL_SENTINEL / 12 = 11 ∧ PEDAL_SENTINEL % 12 = 11 := by decide
    rw [h11.1, h11.2, hadd]

/-- C9 witness: pitch 61 with velocity 200 (clamped to 127) and a pedal value of
130 (clamped to 127). -/
theorem note_and_pedal_macro_format_witness :
    send_note_message 61 200 false = some ["multiply", "numpad5", "numpad1", "subtract", "numpad7"] ∧
    send_pedal 130 = some ["multiply", "add", "add", "subtract", "numpad7"] := by
  constructor
  · have h := note_and_pedal_macro_format.1 61 200 false (by decide) (by decide)
    rw [h]; decide
  · have h := note_and_pedal_macro_format.2.2.2 130
    rw [h]; decide

/-- C10: for arbitrary integer digit arguments (negative or above 11 included),
`encode_and_send_message` clamps each digit into `[0,11]` before indexing the
12-symbol alphabet, so the indexing never goes out of range and the call never
raises. -/
theorem encode_digits_clamped_and_total :
    (∀ v : ℤ, 0 ≤ clamp_digit v ∧ clamp_digit v < 12) ∧
    (∀ a b c d : ℤ, (encode_and_send_message a b c d).isSome = true) := by
  refine ⟨clamp_digit_bounds, ?_⟩
  intro a b c d
  have h : ∀ v : ℤ, py_index encoded_keys (clamp_digit v) = some (digit_symbol (clamp_digit v)) :=
    fun v => py_index_encoded _ (clamp_digit_bounds v).1 (clamp_digit_bounds v).2
  unfold encode_and_send_message
  simp only [py_digit_keys, h a, h b, h c, h d, Option.isSome_some]

/-! ## C1: ordering of the compiled timeline -/

theorem compile_step_events_split (cfg : CompileCfg) (mapper : Mapper) (rng : RNG)
    (sections : List MusicalSection) (st : CompileState) (note : Note) :
    ∃ new, (compile_note_step cfg mapper rng sections st note).events = st.events ++ new ∧
      ∀ e ∈ new, (e.action = "press" → e.priority = 2) ∧ (e.action = "release" → e.priority = 4) := by
  unfold compile_note_step
  dsimp only
  split
  · refine ⟨_, rfl, ?_⟩
    intro e he
    unfold mistake_note_events at he
    simp only [List.mem_cons, List.not_mem_nil, or_false] at he
    rcases he with rfl | rfl
    · exact ⟨fun _ => rfl, by intro hcon; simp at hcon⟩
    · exact ⟨by intro hcon; simp at hcon, fun _ => rfl⟩
  · split
    · refine ⟨_, rfl, ?_⟩
      intro e he
      unfold true_note_events at he
      simp only [List.mem_cons, List.not_mem_nil, or_false] at he
      rcases he with rfl | rfl
      · exact ⟨fun _ => rfl, by intro hcon; simp at hcon⟩
      · exact ⟨by intro hcon; simp at hcon, fun _ => rfl⟩
    · exact ⟨[], by simp, by simp⟩

theorem compile_fold_events_priorities (cfg : CompileCfg) (mapper : Mapper) (rng : RNG)
    (sections : List MusicalSection) :
    ∀ (notes : List Note) (st : CompileState),
      (∀ e ∈ st.events, (e.action = "press" → e.priority = 2) ∧ (e.action = "release" → e.priority = 4)) →
      ∀ e ∈ (notes.foldl (compile_note_step cfg mapper rng sections) st).events,
        (e.action = "press" → e.priority = 2) ∧ (e.action = "release" → e.priority = 4) := by
  intro notes
  induction notes with
  | nil => intro st h; simpa using h
  | cons n ns ih =>
    intro st h
    simp only [List.foldl_cons]
    apply ih
    obtain ⟨new, hsplit, hnew⟩ := compile_step_events_split cfg mapper rng sections st n
    rw [hsplit]
    intro e he
    rcases List.mem_append.mp he with h1 | h2
    exacts [h e h1, hnew e h2]

/-- C1 (amended): every compiled timeline is sorted by the `(time, priority)`
comparison key — in particular scheduled times are non-decreasing — and the
compiler stamps every note-generated press event with priority 2 and every
note-generated release event with priority 4.  Hence among equal-time entries the
timeline orders note presses (priority 2) *before* note releases (priority 4);
the spec's claimed equal-time order pedal-tier < release-tier < press-tier does
not hold of the timeline (see the counterexample), it is only imposed later by the
dispatcher's batch grouping. -/
theorem compiled_timeline_sorted_by_time_priority
    (cfg : CompileCfg) (mapper : Mapper) (rng : RNG) (notes : List Note)
    (sections : List MusicalSection) (pedal_events : List KeyEvent) :
    (compile_event_list cfg mapper rng notes sections pedal_events).1.Pairwise event_le ∧
    (compile_event_list cfg mapper rng notes sections pedal_events).1.Pairwise
      (fun a b => a.time ≤ b.time) ∧
    (∀ e ∈ (notes.foldl (compile_note_step cfg mapper rng sections) compile_init).events,
      (e.action = "press" → e.priority = 2) ∧ (e.action = "release" → e.priority = 4)) := by
  have hsorted : (compile_event_list cfg mapper rng notes sections pedal_events).1.Pairwise event_le := by
    unfold compile_event_list
    dsimp only
    exact List.sorted_insertionSort event_le _
  refine ⟨hsorted, ?_, ?_⟩
  · refine hsorted.imp ?_
    intro a b hab
    rcases hab with h | ⟨h, _⟩
    · exact le_of_lt h
    · exact le_of_eq h
  · exact compile_fold_events_priorities cfg mapper rng sections notes compile_init
      (by simp [compile_init])

/-! ## C2: batch dispatch is grouped pedal, then release, then press -/

theorem tag_run_split (tag : String) (h : ExecState → KeyEvent → ExecState × List Phys)
    (evs : List KeyEvent) :
    ∀ acc, ∃ rest, (tag_run tag h acc evs).2 = acc.2 ++ rest ∧ ∀ tp ∈ rest, tp.1 = tag := by
  induction evs with
  | nil => intro acc; exact ⟨[], by simp [tag_run], by simp⟩
  | cons e es ih =>
    intro acc
    obtain ⟨rest, hr, hrt⟩ := ih ((h acc.1 e).1, acc.2 ++ (h acc.1 e).2.map (fun p => (tag, p)))
    refine ⟨(h acc.1 e).2.map (fun p => (tag, p)) ++ rest, ?_, ?_⟩
    · have : tag_run tag h acc (e :: es)
          = tag_run tag h ((h acc.1 e).1, acc.2 ++ (h acc.1 e).2.map (fun p => (tag, p))) es := by
        simp [tag_run]
      rw [this, hr, List.append_assoc]
    · intro tp htp
      rcases List.mem_append.mp htp with h1 | h2
      · obtain ⟨p, _, rfl⟩ := List.mem_map.mp h1; rfl
      · exact hrt tp h2

theorem pairwise_tier_of_const {l : List (String × Phys)} {t : String}
    (h : ∀ tp ∈ l, tp.1 = t) :
    l.Pairwise (fun x y => tier_rank x.1 ≤ tier_rank y.1) :=
  List.pairwise_of_forall_mem_list (fun a ha b hb => by rw [h a ha, h b hb])

/-- C2: in every batch executed by one dispatcher tick, all pedal actions are
performed first, then all release actions, then all press actions, regardless of
the events' timestamps (the emission order depends only on the action kinds); in
particular a pedal `down` and a note press due at the same instant dispatch the
pedal before the press. -/
theorem dispatch_grouped_by_tier :
    (∀ (mapper : Mapper) (st : ExecState) (events : List KeyEvent),
      ((execute_chord_event mapper st events).2).Pairwise
        (fun x y => tier_rank x.1 ≤ tier_rank y.1)) ∧
    (execute_chord_event ⟨fun p => if p = 60 then some ⟨"q", []⟩ else none, fun _ => none⟩
        ⟨"key", [("q", ⟨"q", false, false⟩)], false, false⟩
        [⟨1, 1, "pedal", "down", none, 127⟩, ⟨1, 2, "press", "q", some 60, 100⟩]).2
      = [("pedal", Phys.pressSpace), ("press", Phys.pressKey [] "q")] := by
  constructor
  · intro mapper st events
    unfold execute_chord_event
    split
    · simp
    · dsimp only
      obtain ⟨r0, h0, h0t⟩ := tag_run_split "pedal" handle_pedal_event
        (events.filter (fun e => e.action == "pedal")) (st, [])
      obtain ⟨r1, h1, h1t⟩ := tag_run_split "release" (exec_release mapper)
        (events.filter (fun e => e.action == "release"))
        (tag_run "pedal" handle_pedal_event (st, []) (events.filter (fun e => e.action == "pedal")))
      obtain ⟨r2, h2, h2t⟩ := tag_run_split "press" (exec_press mapper)
        (events.filter (fun e => e.action == "press"))
        (tag_run "release" (exec_release mapper)
          (tag_run "pedal" handle_pedal_event (st, []) (events.filter (fun e => e.action == "pedal")))
          (events.filter (fun e => e.action == "release")))
      rw [h2, h1, h0]
      simp only [List.nil_append, List.append_assoc]
      rw [List.pairwise_append]
      refine ⟨pairwise_tier_of_const h0t, ?_, ?_⟩
      · rw [List.pairwise_append]
        refine ⟨pairwise_tier_of_const h1t, pairwise_tier_of_const h2t, ?_⟩
        intro a ha b hb
        rw [h1t a ha, h2t b hb]
        decide
      · intro a ha b hb
        rw [h0t a ha]
        rcases List.mem_append.mp hb with h | h
        · rw [h1t b h]; decide
        · rw [h2t b h]; decide
  · decide

/-! ## C6 / C7: shutdown and seek -/

theorem shutdown_state_fields (mapper : Mapper) (s : PlayerSt) :
    ((shutdown mapper s).1).key_states = s.key_states.map (fun e => (e.1, e.2.release)) ∧
    ((shutdown mapper s).1).pedal_is_down = false ∧
    ((shutdown mapper s).1).compiled_events = s.compiled_events ∧
    ((shutdown mapper s).1).paused = s.paused ∧
    ((shutdown mapper s).1).total_paused_time = s.total_paused_time := by
  unfold shutdown
  exact ⟨rfl, rfl, rfl, rfl, rfl⟩

theorem shutdown_key_flags (mapper : Mapper) (s : PlayerSt) :
    ∀ e ∈ ((shutdown mapper s).1).key_states,
      e.2.is_active = false ∧ e.2.is_sustained = false := by
  intro e he
  rw [(shutdown_state_fields mapper s).1] at he
  obtain ⟨x, _, rfl⟩ := List.mem_map.mp he
  exact ⟨rfl, rfl⟩

/-- C6: after `shutdown`, from any prior state, every tracked key has both its
`is_active` and `is_sustained` flags cleared (zero active keys) and the pedal flag
is `false`; running `shutdown` again from that state leaves the state unchanged
(idempotence).  (The second run also emits no key or pedal release, only the three
unconditional defensive modifier releases.) -/
theorem shutdown_clears_all_and_idempotent (mapper : Mapper) (s : PlayerSt) :
    (∀ e ∈ ((shutdown mapper s).1).key_states,
      e.2.is_active = false ∧ e.2.is_sustained = false) ∧
    ((shutdown mapper s).1).pedal_is_down = false ∧
    (shutdown mapper ((shutdown mapper s).1)).1 = (shutdown mapper s).1 := by
  refine ⟨shutdown_key_flags mapper s, (shutdown_state_fields mapper s).2.1, ?_⟩
  unfold shutdown
  dsimp only
  rw [List.map_map]
  rfl

theorem bisect_left_lt (l : List ℚ) (x : ℚ) :
    ∀ j, j < bisect_left l x → ∀ y, l[j]? = some y → y < x := by
  unfold bisect_left
  induction l with
  | nil => intro j hj; simp [List.takeWhile] at hj
  | cons a as ih =>
    intro j hj y hy
    by_cases ha : a < x
    · rw [List.takeWhile_cons_of_pos (by simpa using ha)] at hj
      simp only [List.length_cons] at hj
      cases j with
      | zero =>
        simp only [List.getElem?_cons_zero, Option.some.injEq] at hy
        exact hy ▸ ha
      | succ j =>
        rw [List.getElem?_cons_succ] at hy
        exact ih j (by omega) y hy
    · rw [List.takeWhile_cons_of_neg (by simpa using ha)] at hj
      simp at hj

theorem bisect_left_ge (l : List ℚ) (x : ℚ) :
    ∀ y, l[bisect_left l x]? = some y → x ≤ y := by
  unfold bisect_left
  induction l with
  | nil => intro y hy; simp at hy
  | cons a as ih =>
    intro y hy
    by_cases ha : a < x
    · rw [List.takeWhile_cons_of_pos (by simpa using ha)] at hy
      simp only [List.length_cons, List.getElem?_cons_succ] at hy
      exact ih y hy
    · rw [List.takeWhile_cons_of_neg (by simpa using ha)] at hy
      simp only [List.length_nil, List.getElem?_cons_zero, Option.some.injEq] at hy
      exact hy ▸ le_of_not_lt ha

/-- C7: `seek(t)` first performs a full shutdown (all key flags cleared, pedal
released), relocates the cursor to the first timeline index whose event time is
`≥ t` (every earlier entry's time is `< t` and the entry at the cursor, when it
exists, has time `≥ t`), and recomputes the reference instant so that a reading of
`playback_time` at wall-clock instant `now2` yields exactly
`t + (now2 - now)` in both the paused and the running case — hence within one
polling interval of `t` whenever the reading happens within one interval of the
seek. -/
theorem seek_shuts_down_relocates_cursor_and_realigns_clock
    (mapper : Mapper) (s : PlayerSt) (t now now2 interval : ℚ)
    (ht0 : 0 ≤ t) (htd : t ≤ s.total_duration) :
    (∀ e ∈ (seek mapper s t now).key_states,
      e.2.is_active = false ∧ e.2.is_sustained = false) ∧
    (seek mapper s t now).pedal_is_down = false ∧
    (∀ j, j < (seek mapper s t now).event_index →
      ∀ y, (s.compiled_events.map KeyEvent.time)[j]? = some y → y < t) ∧
    (∀ y, (s.compiled_events.map KeyEvent.time)[(seek mapper s t now).event_index]? = some y →
      t ≤ y) ∧
    playback_time_at (seek mapper s t now) now2 = t + (now2 - now) ∧
    (now ≤ now2 → now2 ≤ now + interval →
      |playback_time_at (seek mapper s t now) now2 - t| ≤ interval) := by
  have hflags := shutdown_key_flags mapper s
  have hfields := shutdown_state_fields mapper s
  have habs : ∀ s2 : PlayerSt, playback_time_at s2 now2 = t + (now2 - now) →
      (now ≤ now2 → now2 ≤ now + interval →
        |playback_time_at s2 now2 - t| ≤ interval) := by
    intro s2 hpb h1 h2
    rw [hpb]
    have : t + (now2 - now) - t = now2 - now := by ring
    rw [this, abs_of_nonneg (by linarith)]
    linarith
  unfold seek
  dsimp only
  rw [hfields.2.2.1]
  split
  · refine ⟨hflags, hfields.2.1, ?_, ?_, ?_, ?_⟩
    · exact fun j hj y hy => bisect_left_lt _ t j hj y hy
    · exact fun y hy => bisect_left_ge _ t y hy
    · unfold playback_time_at; dsimp only; ring
    · exact habs _ (by unfold playback_time_at; dsimp only; ring)
  · refine ⟨hflags, hfields.2.1, ?_, ?_, ?_, ?_⟩
    · exact fun j hj y hy => bisect_left_lt _ t j hj y hy
    · exact fun y hy => bisect_left_ge _ t y hy
    · unfold playback_time_at
      dsimp only
      rw [hfields.2.2.2.2]
      ring
    · exact habs _ (by
        unfold playback_time_at
        dsimp only
        rw [hfields.2.2.2.2]
        ring)

/-! ## C3 / C4 / C8: mistake substitution and unmappable notes -/

/-- C3: a note is considered for substitution only when its pitch is not yet in
the current section's played set (with the set present, compiling with mistakes
enabled equals compiling with them disabled); a substitution is scheduled only
after mistakes are enabled, the pitch is eligible and the Bernoulli draw
`random.random() < mistake_chance` succeeds; for a black true pitch the
replacement is the pitch offset by a uniform index into the duplicate-free
candidate list `[-2, -1, +1, +2]` (every one of the four candidates is reachable,
no colour constraint); for a white true pitch the replacement is drawn by a
uniform index from the duplicate-free white-key subset of those candidates (every
white candidate reachable, `None` when the subset is empty); and when
`_get_mistake_pitch` returns `None` the compiler plays the true pitch. -/
theorem mistake_substitution_rules :
    (∀ (cfg : CompileCfg) (mapper : Mapper) (rng : RNG) (sections : List MusicalSection)
        (st : CompileState) (note : Note),
      section_idx_of sections note = st.current_section_idx → note.pitch ∈ st.played →
      compile_note_step cfg mapper rng sections st note
        = compile_note_step { cfg with enable_mistakes := false } mapper rng sections st note) ∧
    (∀ (cfg : CompileCfg) (mapper : Mapper) (rng : RNG) (played : Finset ℤ) (u c : ℕ) (note : Note),
      mistake_result cfg mapper rng played u c note ≠ none →
      cfg.enable_mistakes = true ∧ note.pitch ∉ played ∧ rng.uniform u < cfg.chance) ∧
    (∀ (p : ℤ) (pick : ℕ), is_black_key p = true →
      get_mistake_pitch p pick = some (p + mistake_offsets.getD (pick % 4) 0)) ∧
    (∀ p : ℤ, is_black_key p = true →
      ([p - 2, p - 1, p + 1, p + 2] : List ℤ).Nodup ∧
      (∀ pick : ℕ, ∃ m ∈ ([p - 2, p - 1, p + 1, p + 2] : List ℤ),
        get_mistake_pitch p pick = some m) ∧
      (∀ m ∈ ([p - 2, p - 1, p + 1, p + 2] : List ℤ),
        ∃ pick : ℕ, pick < 4 ∧ get_mistake_pitch p pick = some m)) ∧
    (∀ p : ℤ, is_black_key p = false →
      (white_candidates p).Nodup ∧
      (∀ pick : ℕ, (white_candidates p).isEmpty = false →
        ∃ m ∈ white_candidates p, get_mistake_pitch p pick = some m) ∧
      (∀ m ∈ white_candidates p,
        ∃ pick : ℕ, pick < (white_candidates p).length ∧ get_mistake_pitch p pick = some m) ∧
      ((white_candidates p).isEmpty = true → ∀ pick : ℕ, get_mistake_pitch p pick = none)) ∧
    (∀ (cfg : CompileCfg) (mapper : Mapper) (rng : RNG) (sections : List MusicalSection)
        (st : CompileState) (note : Note),
      get_mistake_pitch note.pitch (rng.choice st.c_ctr) = none →
      (compile_note_step cfg mapper rng sections st note).events
        = st.events ++ (match mapper.get_key_data note.pitch with
            | some kd => true_note_events note kd
            | none => [])) := by
  have hblack : ∀ (p : ℤ) (pick : ℕ), is_black_key p = true →
      get_mistake_pitch p pick = some (p + mistake_offsets.getD (pick % 4) 0) := by
    intro p pick hb
    unfold get_mistake_pitch
    rw [if_pos hb]
  refine ⟨?_, ?_, hblack, ?_, ?_, ?_⟩
  · intro cfg mapper rng sections st note hsec hmem
    have hns : ¬ (section_idx_of sections note ≠ st.current_section_idx) := fun h => h hsec
    have hmem' : ¬ (note.pitch ∉ st.played) := not_not_intro hmem
    unfold compile_note_step mistake_result
    simp only [hns, if_false, ite_false, if_neg hns, hmem', and_false, false_and,
      if_neg, Bool.false_eq_true]
  · intro cfg mapper rng played u c note h
    unfold mistake_result at h
    by_cases hc : cfg.enable_mistakes ∧ note.pitch ∉ played ∧ rng.uniform u < cfg.chance
    · exact hc
    · rw [if_neg hc] at h
      exact absurd rfl h
  · intro p hb
    have hnd : ([p - 2, p - 1, p + 1, p + 2] : List ℤ).Nodup := by
      simp [List.nodup_cons] <;> omega
    refine ⟨hnd, ?_, ?_⟩
    · intro pick
      rw [hblack p pick hb]
      have h4 : pick % 4 = 0 ∨ pick % 4 = 1 ∨ pick % 4 = 2 ∨ pick % 4 = 3 := by omega
      rcases h4 with h | h | h | h <;> rw [h] <;>
        exact ⟨_, by simp [mistake_offsets] <;> omega, rfl⟩
    · intro m hm
      simp only [List.mem_cons, List.not_mem_nil, or_false] at hm
      rcases hm with rfl | rfl | rfl | rfl
      · exact ⟨0, by omega, by rw [hblack p 0 hb]; exact congrArg some (by show p + (-2 : ℤ) = p - 2; omega)⟩
      · exact ⟨1, by omega, by rw [hblack p 1 hb]; exact congrArg some (by show p + (-1 : ℤ) = p - 1; omega)⟩
      · exact ⟨2, by omega, by rw [hblack p 2 hb]; exact congrArg some (by show p + (1 : ℤ) = p + 1; omega)⟩
      · exact ⟨3, by omega, by rw [hblack p 3 hb]; exact congrArg some (by show p + (2 : ℤ) = p + 2; omega)⟩
  · intro p hw
    have hbase : ([p - 2, p - 1, p + 1, p + 2] : List ℤ).Nodup := by
      simp [List.nodup_cons] <;> omega
    have hwhite : ∀ pick : ℕ, (white_candidates p).isEmpty = false →
        get_mistake_pitch p pick
          = some ((white_candidates p).getD (pick % (white_candidates p).length) 0) := by
      intro pick hne
      simp only [get_mistake_pitch]
      rw [if_neg (by simp [hw]), if_neg (by simp [hne])]
    refine ⟨hbase.filter _, ?_, ?_, ?_⟩
    · intro pick hne
      have hlen : 0 < (white_candidates p).length := by
        cases hl : white_candidates p with
        | nil => rw [hl] at hne; simp at hne
        | cons a as => simp [hl]
      have hidx : pick % (white_candidates p).length < (white_candidates p).length :=
        Nat.mod_lt _ hlen
      refine ⟨_, ?_, hwhite pick hne⟩
      rw [List.getD_eq_getElem?_getD, List.getElem?_eq_getElem hidx]
      exact List.getElem_mem hidx
    · intro m hm
      obtain ⟨i, hi, hie⟩ := List.mem_iff_getElem.mp hm
      have hne : (white_candidates p).isEmpty = false := by
        cases hl : white_candidates p with
        | nil => rw [hl] at hi; simp at hi
        | cons a as => simp [hl]
      refine ⟨i, hi, ?_⟩
      rw [hwhite i hne, List.getD_eq_getElem?_getD, Nat.mod_eq_of_lt hi,
        List.getElem?_eq_getElem hi]
      simpa using hie
    · intro he pick
      simp only [get_mistake_pitch]
      rw [if_neg (by simp [hw]), if_pos (by simp [he])]
  · intro cfg mapper rng sections st note hgmp
    have hmr : mistake_result cfg mapper rng
        (if section_idx_of sections note ≠ st.current_section_idx then (∅ : Finset ℤ) else st.played)
        st.u_ctr st.c_ctr note = none := by
      unfold mistake_result
      rw [hgmp]
      simp
    unfold compile_note_step
    dsimp only
    rw [hmr]
    cases hkd : mapper.get_key_data note.pitch with
    | some kd => simp
    | none => simp

/-- C4 (amended): a substitution drawn for a *white* true pitch never crosses the
black/white colour class — the replacement is itself a white key.  (For a black
true pitch the replacement is drawn with no colour constraint and can be white;
see the counterexample.) -/
theorem mistake_white_preserves_color (p : ℤ) (pick : ℕ) (m : ℤ)
    (hw : is_black_key p = false) (h : get_mistake_pitch p pick = some m) :
    is_black_key m = false := by
  simp only [get_mistake_pitch] at h
  rw [if_neg (by simp [hw])] at h
  by_cases he : (white_candidates p).isEmpty
  · rw [if_pos (by simpa using he)] at h
    cases h
  · rw [if_neg (by simpa using he)] at h
    have hlen : 0 < (white_candidates p).length := by
      cases hl : white_candidates p with
      | nil => rw [hl] at he; simp at he
      | cons a as => simp [hl]
    have hidx : pick % (white_candidates p).length < (white_candidates p).length :=
      Nat.mod_lt _ hlen
    have hmem : m ∈ white_candidates p := by
      have := List.getElem_mem hidx
      rw [List.getD_eq_getElem?_getD, List.getElem?_eq_getElem hidx] at h
      simp only [Option.some.injEq, Option.getD_some] at h
      rwa [h] at this
    have := List.of_mem_filter hmem
    simpa using this

/-- C8: for every note, the compiler adds the note's *true* pitch to the current
section's played set, exactly as for a mappable note; and when no substitution is
scheduled and the true pitch is unmappable, the compiler emits no press or release
events for the note and touches no `KeyState` entry (and, being a total function,
it does not halt compilation). -/
theorem unmappable_note_silent_but_recorded :
    (∀ (cfg : CompileCfg) (mapper : Mapper) (rng : RNG) (sections : List MusicalSection)
        (st : CompileState) (note : Note),
      (compile_note_step cfg mapper rng sections st note).played
        = insert note.pitch
            (if section_idx_of sections note ≠ st.current_section_idx then (∅ : Finset ℤ)
             else st.played)) ∧
    (∀ (cfg : CompileCfg) (mapper : Mapper) (rng : RNG) (sections : List MusicalSection)
        (st : CompileState) (note : Note),
      mistake_result cfg mapper rng
          (if section_idx_of sections note ≠ st.current_section_idx then (∅ : Finset ℤ)
           else st.played) st.u_ctr st.c_ctr note = none →
      mapper.get_key_data note.pitch = none →
      (compile_note_step cfg mapper rng sections st note).events = st.events ∧
      (compile_note_step cfg mapper rng sections st note).key_states = st.key_states) := by
  constructor
  · intro cfg mapper rng sections st note
    unfold compile_note_step
    dsimp only
    split
    · rfl
    · split <;> rfl
  · intro cfg mapper rng sections st note hmr hkd
    unfold compile_note_step
    dsimp only
    rw [hmr, hkd]
    exact ⟨rfl, rfl⟩

/-! ## Concrete evaluations: counterexamples and witnesses

The rational-arithmetic definitions of Batteries are `@[irreducible]` for
elaboration performance only; they are made semireducible locally so that `decide`
can evaluate the compiled pipelines on concrete inputs inside the kernel. -/

section

attribute [local semireducible] Rat.add Rat.sub Rat.mul Rat.inv Rat.ofScientific

/-- C1 counterexample: two mapped notes (pitch 60 at time 0 for one second and
pitch 62 at time 1 for one second), mistakes disabled, no pedal events.  The
compiled timeline is `press(60)@0, press(62)@1, release(60)@1, release(62)@2`: at
time 1 the press (priority 2) precedes the release (priority 4), so the claimed
equal-time order pedal-tier < release-tier < press-tier is violated. -/
theorem compiled_tier_order_cex :
    ¬ claimed_tier_order
      ((compile_event_list ⟨false, 0⟩
        ⟨fun p => if p = 60 then some ⟨"a", []⟩ else if p = 62 then some ⟨"b", []⟩ else none,
         fun _ => none⟩
        ⟨fun _ => 1, fun _ => 0⟩
        [⟨1, 60, 100, 0, 1, "right"⟩, ⟨2, 62, 100, 1, 1, "right"⟩]
        [] []).1) := by decide

/-- C4 counterexample: with `mistake_chance = 100%`, the black key 61 (C#) is
substituted (the choice stream picks offset `-1`) and the realized press event
carries pitch 60 — a white key.  Substitution from a black original crosses the
black/white colour class. -/
theorem mistake_color_cross_cex :
    is_black_key 61 = true ∧ is_black_key 60 = false ∧
    get_mistake_pitch 61 1 = some 60 ∧
    ((compile_event_list ⟨true, 100⟩
        ⟨fun p => if p = 60 then some ⟨"m", []⟩ else if p = 61 then some ⟨"t", []⟩ else none,
         fun _ => none⟩
        ⟨fun _ => 0, fun _ => 1⟩
        [⟨1, 61, 100, 0, 1, "right"⟩] [] []).1.filter (fun e => e.action == "press"))
      = [⟨0, 2, "press", "m", some 60, 100⟩] := by decide

/-- C4 witness (for the amended theorem): the white key 60 draws the white
replacement 59. -/
theorem mistake_white_preserves_color_witness :
    is_black_key 60 = false ∧ get_mistake_pitch 60 0 = some 59 ∧ is_black_key 59 = false :=
  ⟨by decide, by decide, mistake_white_preserves_color 60 0 59 (by decide) (by decide)⟩

/-- C5: the mistake branch of `_compile_event_list` pushes its press/release pair
for the substituted key but never initializes that key's `KeyState` entry (the
`if key_char not in self.key_states` line exists only in the non-mistake branch).
With one note (pitch 61 substituted to 60, key `m`) the compiled timeline contains
the two events for `m` while the key-state table stays empty — and consequently
the key-mode dispatcher, whose press/release handlers skip events whose key has no
state entry, emits nothing at all for them. -/
theorem mistake_key_state_not_initialized :
    (let mapper : Mapper := ⟨fun p => if p = 60 then some ⟨"m", []⟩
        else if p = 61 then some ⟨"t", []⟩ else none, fun _ => none⟩
     let res := compile_event_list ⟨true, 100⟩ mapper ⟨fun _ => 0, fun _ => 1⟩
        [⟨1, 61, 100, 0, 1, "right"⟩] [] []
     res.1 = [⟨0, 2, "press", "m", some 60, 100⟩, ⟨1, 4, "release", "m", some 60, 0⟩]
       ∧ res.2.1 = []
       ∧ (execute_chord_event mapper ⟨"key", res.2.1, false, false⟩ res.1).2 = []) := by decide

/-- C3 witness: with pitch 60 already in the current section's played set the
step equals the mistakes-disabled step, and the black key 61 with choice index 1
draws replacement 60. -/
theorem mistake_substitution_rules_witness :
    (compile_note_step ⟨true, 100⟩ ⟨fun _ => none, fun _ => none⟩ ⟨fun _ => 0, fun _ => 0⟩ []
        ⟨{60}, -1, [], [], 0, 0⟩ ⟨1, 60, 100, 0, 1, "right"⟩
      = compile_note_step ⟨false, 100⟩ ⟨fun _ => none, fun _ => none⟩ ⟨fun _ => 0, fun _ => 0⟩ []
        ⟨{60}, -1, [], [], 0, 0⟩ ⟨1, 60, 100, 0, 1, "right"⟩) ∧
    get_mistake_pitch 61 1 = some 60 := by
  constructor
  · exact mistake_substitution_rules.1 ⟨true, 100⟩ ⟨fun _ => none, fun _ => none⟩
      ⟨fun _ => 0, fun _ => 0⟩ [] ⟨{60}, -1, [], [], 0, 0⟩ ⟨1, 60, 100, 0, 1, "right"⟩
      (by decide) (by decide)
  · have h := mistake_substitution_rules.2.2.1 61 1 (by decide)
    rw [h]; decide

/-- C7 witness: a state with one active, sustained key, the pedal down, and a
two-event timeline of duration 2; seeking to `t = 1` at wall-clock 10 and reading
the clock at 10 yields exactly 1. -/
theorem seek_witness :
    playback_time_at
      (seek ⟨fun _ => none, fun _ => none⟩
        ⟨[("a", ⟨"a", true, true⟩)], true,
         [⟨0, 2, "press", "a", some 60, 100⟩, ⟨2, 4, "release", "a", some 60, 0⟩],
         0, 0, 0, 0, false, 2⟩ 1 10) 10 = 1 ∧
    (seek ⟨fun _ => none, fun _ => none⟩
        ⟨[("a", ⟨"a", true, true⟩)], true,
         [⟨0, 2, "press", "a", some 60, 100⟩, ⟨2, 4, "release", "a", some 60, 0⟩],
         0, 0, 0, 0, false, 2⟩ 1 10).pedal_is_down = false := by
  have h := seek_shuts_down_relocates_cursor_and_realigns_clock
    ⟨fun _ => none, fun _ => none⟩
    ⟨[("a", ⟨"a", true, true⟩)], true,
     [⟨0, 2, "press", "a", some 60, 100⟩, ⟨2, 4, "release", "a", some 60, 0⟩],
     0, 0, 0, 0, false, 2⟩ 1 10 10 1 (by decide) (by decide)
  refine ⟨?_, h.2.1⟩
  rw [h.2.2.2.2.1]
  decide

/-- C1 witness (for the amended theorem): the compiler stamps the press event of a
concrete mapped note with priority 2. -/
theorem compiled_timeline_sorted_witness :
    (⟨0, 2, "press", "a", some 60, 100⟩ : KeyEvent).priority = 2 := by
  have h := (compiled_timeline_sorted_by_time_priority ⟨false, 0⟩
    ⟨fun p => if p = 60 then some ⟨"a", []⟩ else none, fun _ => none⟩
    ⟨fun _ => 1, fun _ => 0⟩ [⟨1, 60, 100, 0, 1, "right"⟩] [] []).2.2
  exact (h ⟨0, 2, "press", "a", some 60, 100⟩ (by decide)).1 rfl

/-- C6 witness: shutting down a state with one active, sustained key and the
pedal engaged releases the pedal and clears the key's flags. -/
theorem shutdown_witness :
    (shutdown ⟨fun _ => none, fun _ => none⟩
      ⟨[("a", ⟨"a", true, true⟩)], true, [], 0, 0, 0, 0, false, 0⟩).1.pedal_is_down = false ∧
    (("a", (⟨"a", false, false⟩ : KeyState))).2.is_active = false := by
  have h := shutdown_clears_all_and_idempotent ⟨fun _ => none, fun _ => none⟩
    ⟨[("a", ⟨"a", true, true⟩)], true, [], 0, 0, 0, 0, false, 0⟩
  exact ⟨h.2.1, (h.1 ("a", ⟨"a", false, false⟩) (by decide)).1⟩

/-- C8 witness: a note whose pitch no mapper resolves emits nothing, yet its pitch
is recorded in the played set. -/
theorem unmappable_note_witness :
    (compile_note_step ⟨false, 0⟩ ⟨fun _ => none, fun _ => none⟩ ⟨fun _ => 1, fun _ => 0⟩ []
        compile_init ⟨1, 60, 100, 0, 1, "right"⟩).events = [] ∧
    (compile_note_step ⟨false, 0⟩ ⟨fun _ => none, fun _ => none⟩ ⟨fun _ => 1, fun _ => 0⟩ []
        compile_init ⟨1, 60, 100, 0, 1, "right"⟩).played = {60} := by
  constructor
  · exact (unmappable_note_silent_but_recorded.2 ⟨false, 0⟩ ⟨fun _ => none, fun _ => none⟩
      ⟨fun _ => 1, fun _ => 0⟩ [] compile_init ⟨1, 60, 100, 0, 1, "right"⟩ (by decide) rfl).1
  · rw [unmappable_note_silent_but_recorded.1 ⟨false, 0⟩ ⟨fun _ => none, fun _ => none⟩
      ⟨fun _ => 1, fun _ => 0⟩ [] compile_init ⟨1, 60, 100, 0, 1, "right"⟩]
    decide

end

end Jukebox
